import Mathlib

/-!
Shallow embedding of the Pacman-style arcade game engine (src/main.py).

Conventions of the embedding:
* Python floats are modelled as exact rationals (`ℚ`); all positions,
  speeds and the movement arithmetic of the source use only values that
  are exact in this model (multiples of 1/10).
* Python's float modulo `a % b` (for `b > 0`) is `a - b * ⌊a / b⌋`,
  embedded as `qmod`.
* `math.hypot dx dy < t` for a nonnegative threshold `t` is embedded as
  the equivalent squared comparison `dx^2 + dy^2 < t^2`.
* `random.choice` is embedded by passing the choice as an explicit
  function parameter (`pick`, `rd`), so every theorem quantifies over
  all possible random outcomes.
* The per-frame clock value `pygame.time.get_ticks()` is passed as an
  explicit `now : ℕ` (milliseconds).
* pygame event/rendering code is out of scope; `Game.run`'s per-frame
  update block (the simulation step) is embedded as `tick`.
-/

namespace PacSim

/-- Tile definitions: 1 = Wall, 0 = Empty, 2 = Pellet, 3 = Power Pellet
(source: `maze_layout`). -/
def maze_layout : List (List ℕ) :=
  [[1, 1, 1, 1, 1, 1, 1],
   [1, 2, 2, 3, 2, 2, 1],
   [1, 2, 1, 1, 1, 2, 1],
   [1, 2, 2, 2, 2, 2, 1],
   [1, 3, 1, 1, 1, 3, 1],
   [1, 2, 2, 2, 2, 2, 1],
   [1, 1, 1, 1, 1, 1, 1]]

-- TILE_SIZE = 64 and UI_HEIGHT = 64 appear as the literals 64 below.

/-- source: `PACMAN_SPEED = 3.0` -/
def PACMAN_SPEED : ℚ := 3

/-- source: `GHOST_SPEED = 2.6` -/
def GHOST_SPEED : ℚ := 13 / 5

/-- source: `POWER_DURATION_MS = 6000` -/
def POWER_DURATION_MS : ℕ := 6000

/-- source: `PELLET_SCORE = 10` -/
def PELLET_SCORE : ℕ := 10

/-- source: `POWER_PELLET_SCORE = 50` -/
def POWER_PELLET_SCORE : ℕ := 50

/-- source: `GHOST_EAT_SCORE = 200` -/
def GHOST_EAT_SCORE : ℕ := 200

/-- source: `UP = (0, -1)` -/
def UP : ℤ × ℤ := (0, -1)

/-- source: `DOWN = (0, 1)` -/
def DOWN : ℤ × ℤ := (0, 1)

/-- source: `LEFT = (-1, 0)` -/
def LEFT : ℤ × ℤ := (-1, 0)

/-- source: `RIGHT = (1, 0)` -/
def RIGHT : ℤ × ℤ := (1, 0)

/-- source: `STOP = (0, 0)` -/
def STOP : ℤ × ℤ := (0, 0)

/-- source: `add_tuple` -/
def add_tuple (a b : ℤ × ℤ) : ℤ × ℤ := (a.1 + b.1, a.2 + b.2)

/-- source: `opposite` -/
def opposite (d : ℤ × ℤ) : ℤ × ℤ := (-d.1, -d.2)

/-- Python float modulo for a positive modulus: `a % b = a - b * ⌊a / b⌋`. -/
def qmod (a b : ℚ) : ℚ := a - b * ⌊a / b⌋

/-- source: `grid_to_pixel(cell)`: `(c * TILE_SIZE + TILE_SIZE / 2,
r * TILE_SIZE + TILE_SIZE / 2 + UI_HEIGHT)`. -/
def grid_to_pixel (cell : ℤ × ℤ) : ℚ × ℚ :=
  ((cell.1 : ℚ) * 64 + 32, (cell.2 : ℚ) * 64 + 32 + 64)

/-- source: `pixel_to_grid(pos)`: subtract `UI_HEIGHT` from y, then floor
division by `TILE_SIZE`. -/
def pixel_to_grid (pos : ℚ × ℚ) : ℤ × ℤ :=
  (⌊pos.1 / 64⌋, ⌊(pos.2 - 64) / 64⌋)

/-- source: `is_centered(pos)`: `gx = (x - TILE_SIZE/2) % TILE_SIZE`,
`gy = (y - UI_HEIGHT - TILE_SIZE/2) % TILE_SIZE`,
`abs(gx) < 0.5 and abs(gy) < 0.5`. -/
def is_centered (pos : ℚ × ℚ) : Bool :=
  decide (|qmod (pos.1 - 32) 64| < 1 / 2) && decide (|qmod (pos.2 - 64 - 32) 64| < 1 / 2)

/-- Mutable maze state: the layout grid plus the two consumable sets
(source: class `Maze`, fields `layout`, `pellets`, `power_pellets`). -/
structure Maze where
  layout : List (List ℕ)
  pellets : Finset (ℤ × ℤ)
  power_pellets : Finset (ℤ × ℤ)
  deriving DecidableEq

/-- source: `self.rows = len(self.layout)` -/
def mazeRows (L : List (List ℕ)) : ℕ := L.length

/-- source: `self.cols = len(self.layout[0])` -/
def mazeCols (L : List (List ℕ)) : ℕ := (L.getD 0 []).length

/-- source: `Maze.in_bounds(cell)`: `0 <= r < rows and 0 <= c < cols`. -/
def in_bounds (m : Maze) (cell : ℤ × ℤ) : Bool :=
  decide (0 ≤ cell.2) && decide (cell.2 < (mazeRows m.layout : ℤ)) &&
    decide (0 ≤ cell.1) && decide (cell.1 < (mazeCols m.layout : ℤ))

/-- The layout entry `layout[r][c]`; indices are only consulted when
nonnegative and in range (the callers that mutate the layout do so only
at in-bounds pellet cells). -/
def entryAt (m : Maze) (cell : ℤ × ℤ) : ℕ :=
  (m.layout.getD cell.2.toNat []).getD cell.1.toNat 0

/-- source: `Maze.is_wall(cell)`: out of bounds counts as a wall,
otherwise `layout[r][c] == 1`. -/
def is_wall (m : Maze) (cell : ℤ × ℤ) : Bool :=
  if in_bounds m cell = true then decide (entryAt m cell = 1) else true

/-- source: `self.layout[cell[1]][cell[0]] = v` (in-place update used by
`eat_at`, always at an in-bounds pellet cell). -/
def setCell (L : List (List ℕ)) (cell : ℤ × ℤ) (v : ℕ) : List (List ℕ) :=
  L.set cell.2.toNat ((L.getD cell.2.toNat []).set cell.1.toNat v)

/-- source: `Maze.eat_at(cell)`: returns the score gained, removing the
consumed pellet from its set and zeroing its layout entry. -/
def eat_at (m : Maze) (cell : ℤ × ℤ) : ℕ × Maze :=
  if cell ∈ m.pellets then
    (PELLET_SCORE,
      { layout := setCell m.layout cell 0,
        pellets := m.pellets.erase cell,
        power_pellets := m.power_pellets })
  else if cell ∈ m.power_pellets then
    (POWER_PELLET_SCORE,
      { layout := setCell m.layout cell 0,
        pellets := m.pellets,
        power_pellets := m.power_pellets.erase cell })
  else (0, m)

/-- source: `Maze.remaining_dots()` -/
def remaining_dots (m : Maze) : ℕ := m.pellets.card + m.power_pellets.card

/-- source: `Maze._scan_pellets` restricted to one tile value `v`:
the set of cells `(c, r)` with `layout[r][c] == v`. -/
def scanCells (L : List (List ℕ)) (v : ℕ) : Finset (ℤ × ℤ) :=
  ((List.range (mazeRows L)).flatMap (fun r =>
    ((List.range (mazeCols L)).filter (fun c => (L.getD r []).getD c 0 == v)).map
      (fun c => ((c : ℤ), (r : ℤ))))).toFinset

/-- source: `Maze.__init__` followed by `_scan_pellets`. -/
def mazeInit (L : List (List ℕ)) : Maze :=
  { layout := L, pellets := scanCells L 2, power_pellets := scanCells L 3 }

/-!
## Actor movement (source: class `Actor`)
An actor's mutable state used by the movement logic is its continuous
position and its direction; the speed is a per-class constant.
-/

/-- One (possibly fractional) pixel step of size `k` in direction `d`
(source: `self.pos[0] += self.dir[0] * k` and likewise for y,
with `k = 1` in the integer loop and `k = frac` afterwards). -/
def stepP (p : ℚ × ℚ) (d : ℤ × ℤ) (k : ℚ) : ℚ × ℚ :=
  (p.1 + (d.1 : ℚ) * k, p.2 + (d.2 : ℚ) * k)

/-- source: `Actor.can_move_dir(dir_)`: refuse when centered and the cell
one tile ahead is a wall; otherwise require the cell of the next pixel
position to be open. (`current_cell` is `pixel_to_grid(pos)`.) -/
def can_move_dir (m : Maze) (p : ℚ × ℚ) (d : ℤ × ℤ) : Bool :=
  let nextCell := pixel_to_grid (p.1 + (d.1 : ℚ), p.2 + (d.2 : ℚ))
  let aheadCell := add_tuple (pixel_to_grid p) d
  if is_centered p = true ∧ is_wall m aheadCell = true then false
  else !(is_wall m nextCell)

/-- The integer-step loop of `Actor.move`:
`for _ in range(int(self.speed)): if can_move_dir: step else break`. -/
def move_steps (m : Maze) (d : ℤ × ℤ) : ℕ → ℚ × ℚ → ℚ × ℚ
  | 0, p => p
  | n + 1, p => if can_move_dir m p d = true then move_steps m d n (stepP p d 1) else p

/-- source: `Actor.move()`: no-op on `STOP`; otherwise `int(speed)`
guarded 1-pixel steps, then one guarded fractional step of size
`frac = speed - int(speed)` when `frac > 0`. -/
def actor_move (m : Maze) (speed : ℚ) (d : ℤ × ℤ) (p : ℚ × ℚ) : ℚ × ℚ :=
  if d = STOP then p
  else
    let p1 := move_steps m d ⌊speed⌋.toNat p
    let frac := speed - (⌊speed⌋.toNat : ℚ)
    if 0 < frac ∧ can_move_dir m p1 d = true then stepP p1 d frac else p1

/-- Player state (source: class `Pacman`): position, direction and the
buffered pending direction. -/
structure Pacman where
  pos : ℚ × ℚ
  dir : ℤ × ℤ
  pending_dir : ℤ × ℤ
  deriving DecidableEq

/-- source: `Pacman.__init__(maze, cell)`. -/
def Pacman.init (cell : ℤ × ℤ) : Pacman :=
  { pos := grid_to_pixel cell, dir := STOP, pending_dir := STOP }

/-- source: `Pacman.update()`: commit the pending direction when centered
and the cell ahead in that direction is open, then move. -/
def Pacman.update (m : Maze) (p : Pacman) : Pacman :=
  let p1 :=
    if p.pending_dir ≠ STOP ∧ is_centered p.pos = true ∧
        is_wall m (add_tuple (pixel_to_grid p.pos) p.pending_dir) = false then
      { p with dir := p.pending_dir }
    else p
  { p1 with pos := actor_move m PACMAN_SPEED p1.dir p1.pos }

/-- Adversary state (source: class `Ghost`): position, direction,
frightened flag, fixed respawn cell, alive flag. -/
structure Ghost where
  pos : ℚ × ℚ
  dir : ℤ × ℤ
  frightened : Bool
  respawn_cell : ℤ × ℤ
  alive : Bool
  deriving DecidableEq

/-- source: `Ghost.__init__(maze, cell, color)`, with the initial
`random.choice([UP, DOWN, LEFT, RIGHT])` passed in as `d`. -/
def Ghost.init (cell : ℤ × ℤ) (d : ℤ × ℤ) : Ghost :=
  { pos := grid_to_pixel cell, dir := d, frightened := false,
    respawn_cell := cell, alive := true }

/-- source: `Ghost.available_dirs()`: the four directions minus walls,
minus the reverse of the current direction when not centered; if the
filter leaves nothing, the reverse alone. -/
def available_dirs (m : Maze) (g : Ghost) : List (ℤ × ℤ) :=
  let valid := [UP, DOWN, LEFT, RIGHT].filter (fun d =>
    !(is_wall m (add_tuple (pixel_to_grid g.pos) d)) &&
      !(decide (d = opposite g.dir) && !(is_centered g.pos)))
  if valid = [] then [opposite g.dir] else valid

/-- source: `Ghost.update()`: when centered, drop the reverse direction
if other options exist, pick one at random (`pick` stands for
`random.choice`), then move. -/
def Ghost.update (m : Maze) (pick : List (ℤ × ℤ) → ℤ × ℤ) (g : Ghost) : Ghost :=
  let g1 :=
    if is_centered g.pos = true then
      let options := available_dirs m g
      let options2 :=
        if 1 < options.length ∧ opposite g.dir ∈ options then
          options.erase (opposite g.dir)
        else options
      { g with dir := pick options2 }
    else g
  { g1 with pos := actor_move m GHOST_SPEED g1.dir g1.pos }

/-- source: `Ghost.reset_to_spawn()`, with the fresh
`random.choice([UP, DOWN, LEFT, RIGHT])` passed in as `d`. -/
def reset_to_spawn (d : ℤ × ℤ) (g : Ghost) : Ghost :=
  { g with pos := grid_to_pixel g.respawn_cell, dir := d,
           alive := true, frightened := false }

/-!
## Round controller (source: class `Game`)
-/

/-- Round/game state owned by the controller (source: `Game.__init__`):
the maze, the player, the adversaries, score, lives, the power-mode
expiry timestamp in ms (`0` means inactive), and the win/game-over
flags. -/
structure Game where
  maze : Maze
  pacman : Pacman
  ghosts : List Ghost
  score : ℕ
  lives : ℤ
  power_expires_at : ℕ
  win : Bool
  game_over : Bool
  deriving DecidableEq

/-- source: `Game.__init__`, with the two initial random ghost
directions passed in. -/
def Game.init (d1 d2 : ℤ × ℤ) : Game :=
  { maze := mazeInit maze_layout,
    pacman := Pacman.init (3, 3),
    ghosts := [Ghost.init (3, 1) d1, Ghost.init (3, 5) d2],
    score := 0, lives := 3, power_expires_at := 0,
    win := false, game_over := false }

/-- source: `Game.set_power_mode()`: expiry at `now + POWER_DURATION_MS`
and every currently-alive ghost becomes frightened. -/
def set_power_mode (now : ℕ) (st : Game) : Game :=
  { st with power_expires_at := now + POWER_DURATION_MS,
            ghosts := st.ghosts.map (fun g =>
              if g.alive = true then { g with frightened := true } else g) }

/-- source: `Game.update_power_mode()`: when the expiry is set and has
passed, clear it and every ghost's frightened flag. -/
def update_power_mode (now : ℕ) (st : Game) : Game :=
  if st.power_expires_at ≠ 0 ∧ st.power_expires_at < now then
    { st with power_expires_at := 0,
              ghosts := st.ghosts.map (fun g => { g with frightened := false }) }
  else st

/-- source: `Game.eat_logic()`: consume at the player's cell, add the
gained score, and start power mode when a power pellet was eaten. -/
def eat_logic (now : ℕ) (st : Game) : Game :=
  let cell := pixel_to_grid st.pacman.pos
  let r := eat_at st.maze cell
  let st1 := { st with maze := r.2 }
  if r.1 ≠ 0 then
    let st2 := { st1 with score := st1.score + r.1 }
    if r.1 = POWER_PELLET_SCORE then set_power_mode now st2 else st2
  else st1

/-- The squared-distance form of the source's proximity test
`math.hypot(px - gx, py - gy) < TILE_SIZE * 0.6`: for a nonnegative
threshold, `hypot dx dy < t` iff `dx^2 + dy^2 < t^2`
(here `t = 38.4 = 192/5`). -/
def collides (a b : ℚ × ℚ) : Bool :=
  decide ((a.1 - b.1) ^ 2 + (a.2 - b.2) ^ 2 < (192 / 5) ^ 2)

/-- The ghost-list rebuild of `Game.reset_round`: each ghost is sent to
spawn with its own fresh random direction `rd i`. -/
def resetGhosts (rd : ℕ → ℤ × ℤ) : ℕ → List Ghost → List Ghost
  | _, [] => []
  | i, g :: gs => reset_to_spawn (rd i) g :: resetGhosts rd (i + 1) gs

/-- source: `Game.reset_round()`: a fresh player at `(3, 3)`, all ghosts
to spawn, power mode cleared; score, lives, flags and the maze (hence
the pellet sets) untouched. -/
def reset_round (rd : ℕ → ℤ × ℤ) (st : Game) : Game :=
  { st with pacman := Pacman.init (3, 3),
            ghosts := resetGhosts rd 0 st.ghosts,
            power_expires_at := 0 }

/-- The ghost loop of `Game.collision_logic`: `gs` are the ghosts still
to process, `acc` the already-processed ghosts in reverse order. A dead
or distant ghost is skipped; a frightened one is eaten (dies, score
bonus); otherwise a life is lost, game over is set when lives reach 0,
and `reset_round` runs immediately, ending the loop (`return`). -/
def collisionGo (rd : ℕ → ℤ × ℤ) (pacPos : ℚ × ℚ) :
    List Ghost → List Ghost → Game → Game
  | [], acc, st => { st with ghosts := acc.reverse }
  | g :: rest, acc, st =>
    if g.alive = true ∧ collides pacPos g.pos = true then
      if g.frightened = true then
        collisionGo rd pacPos rest
          ({ g with alive := false, frightened := false } :: acc)
          { st with score := st.score + GHOST_EAT_SCORE }
      else
        reset_round rd
          { st with lives := st.lives - 1,
                    game_over := if st.lives - 1 ≤ 0 then true else st.game_over,
                    ghosts := acc.reverse ++ g :: rest }
    else collisionGo rd pacPos rest (g :: acc) st

/-- source: `Game.collision_logic()` (the respawn timer side effect of
eating a ghost is event-queue plumbing outside the modelled state). -/
def collision_logic (rd : ℕ → ℤ × ℤ) (st : Game) : Game :=
  collisionGo rd st.pacman.pos st.ghosts [] st

/-- source: `Game.check_win()`. -/
def check_win (st : Game) : Game :=
  if remaining_dots st.maze = 0 then { st with win := true, game_over := true } else st

/-- The ghost-update loop of `Game.run` with per-ghost random choices
`pick i`. -/
def updateGhosts (m : Maze) (pick : ℕ → List (ℤ × ℤ) → ℤ × ℤ) :
    ℕ → List Ghost → List Ghost
  | _, [] => []
  | i, g :: gs => Ghost.update m (pick i) g :: updateGhosts m pick (i + 1) gs

/-- One simulation step: the per-frame update block of `Game.run`
(player update, ghost updates, power-mode expiry, pellet consumption,
collision resolution, win check), skipped entirely when the game is
over. -/
def tick (now : ℕ) (pick : ℕ → List (ℤ × ℤ) → ℤ × ℤ) (rd : ℕ → ℤ × ℤ)
    (st : Game) : Game :=
  if st.game_over = true then st
  else
    let st1 := { st with pacman := Pacman.update st.maze st.pacman }
    let st2 := { st1 with ghosts := updateGhosts st1.maze pick 0 st1.ghosts }
    let st3 := update_power_mode now st2
    let st4 := eat_logic now st3
    let st5 := collision_logic rd st4
    check_win st5

/-- Modelled from the spec's words, for comparison with the source's
`is_centered`: "true when position's offset from its containing cell's
center is within a small tolerance (sub-pixel, e.g. < 0.5 unit) in both
axes" — i.e. the absolute offset from the center of the containing cell
is below 1/2 on each axis. -/
def spec_is_centered (p : ℚ × ℚ) : Bool :=
  decide (|p.1 - (grid_to_pixel (pixel_to_grid p)).1| < 1 / 2) &&
    decide (|p.2 - (grid_to_pixel (pixel_to_grid p)).2| < 1 / 2)

/-- Maze states reachable in a run: the scan of the static layout,
followed by any sequence of consumptions (`eat_at` is the only maze
mutation in the source). -/
inductive Reachable : Maze → Prop where
  | init : Reachable (mazeInit maze_layout)
  | eat (m : Maze) (cell : ℤ × ℤ) : Reachable m → Reachable (eat_at m cell).2

/-- Invariant bundle carried along `Reachable`: pellet cells are open,
walls agree with the initial maze, and the two pellet sets are
disjoint. -/
def mazeInv (m : Maze) : Prop :=
  (∀ c ∈ m.pellets, is_wall m c = false) ∧
  (∀ c ∈ m.power_pellets, is_wall m c = false) ∧
  (∀ c, is_wall m c = is_wall (mazeInit maze_layout) c) ∧
  (∀ c, ¬(c ∈ m.pellets ∧ c ∈ m.power_pellets))

/-!
## Concrete data used by witnesses and counterexamples
-/

/-- A deterministic stand-in for `random.choice`: the first option. -/
def pick0 : ℕ → List (ℤ × ℤ) → ℤ × ℤ := fun _ l => l.getD 0 STOP

/-- A deterministic stand-in for the random respawn directions. -/
def rd0 : ℕ → ℤ × ℤ := fun _ => UP

/-- A default ghost used with `List.getD`. -/
def gdef : Ghost := Ghost.init (3, 1) UP

/-- State for claim C1: one life left, an alive non-frightened ghost
exactly at the player's position (player parked at cell (1, 1)). -/
def stC1 : Game :=
  { Game.init UP UP with
    pacman := Pacman.init (1, 1),
    lives := 1,
    ghosts := [{ pos := grid_to_pixel (1, 1), dir := UP, frightened := false,
                 respawn_cell := (3, 1), alive := true }] }

/-- State for claim C2: the first ghost is dead (awaiting respawn), off
center at (97, 288) heading RIGHT down an open corridor. -/
def stC2 : Game :=
  { Game.init RIGHT UP with
    ghosts := [{ pos := (97, 288), dir := RIGHT, frightened := false,
                 respawn_cell := (3, 1), alive := false },
               Ghost.init (3, 5) UP] }

/-- State for claim C8: a dead ghost coinciding with the player's
position. -/
def stC8 : Game :=
  { Game.init UP UP with
    ghosts := [{ pos := grid_to_pixel (3, 3), dir := UP, frightened := false,
                 respawn_cell := (3, 1), alive := false }] }

/-- State for claim C7: the player parked on the power-pellet cell
(3, 1). -/
def stC7 : Game :=
  { Game.init UP UP with pacman := Pacman.init (3, 1) }

/-- State for the pellet half of claim C7's witness: the player parked
on the plain-pellet cell (1, 1). -/
def stC7b : Game :=
  { Game.init UP UP with pacman := Pacman.init (1, 1) }

/-!
## Sanity checks of the embedding on concrete values
-/

example : is_wall (mazeInit maze_layout) (0, 0) = true := by decide
example : is_wall (mazeInit maze_layout) (1, 1) = false := by decide
example : is_wall (mazeInit maze_layout) (-1, 3) = true := by decide
example : ((3 : ℤ), (1 : ℤ)) ∈ (mazeInit maze_layout).power_pellets := by decide
example : remaining_dots (mazeInit maze_layout) = 19 := by decide
example : is_centered (grid_to_pixel (1, 1)) = true := by with_unfolding_all decide
example : is_centered (317 / 10, 96) = false := by with_unfolding_all decide

/-!
## Movement preserves the non-wall invariant (claim C3 machinery)
-/

theorem stepP_one (p : ℚ × ℚ) (d : ℤ × ℤ) :
    stepP p d 1 = (p.1 + (d.1 : ℚ), p.2 + (d.2 : ℚ)) := by
  simp [stepP]

/-- A passing `can_move_dir` check means the cell of the one-pixel-ahead
position is open. -/
theorem can_move_dir_next {m : Maze} {p : ℚ × ℚ} {d : ℤ × ℤ}
    (h : can_move_dir m p d = true) :
    is_wall m (pixel_to_grid (p.1 + (d.1 : ℚ), p.2 + (d.2 : ℚ))) = false := by
  unfold can_move_dir at h
  dsimp only at h
  split at h
  · simp at h
  · simpa using h

/-- The guarded integer-step loop keeps the resolved cell open. -/
theorem move_steps_nonwall (m : Maze) (d : ℤ × ℤ) :
    ∀ (n : ℕ) (p : ℚ × ℚ), is_wall m (pixel_to_grid p) = false →
      is_wall m (pixel_to_grid (move_steps m d n p)) = false := by
  intro n
  induction n with
  | zero => intro p h; simpa [move_steps] using h
  | succ k ih =>
    intro p h
    unfold move_steps
    split
    · next hc =>
      apply ih
      rw [stepP_one]
      exact can_move_dir_next hc
    · exact h

/-- Floor interval fact used for fractional steps: moving at most one
unit to the right keeps the floor-of-sixty-fourth within the cells of
the two endpoints. -/
theorem floor_div64_between (x f : ℚ) (h0 : 0 ≤ f) (h1 : f ≤ 1) :
    ⌊(x + f) / 64⌋ = ⌊x / 64⌋ ∨ ⌊(x + f) / 64⌋ = ⌊(x + 1) / 64⌋ := by
  have ha : ⌊x / 64⌋ ≤ ⌊(x + f) / 64⌋ := Int.floor_mono (by linarith)
  have hb : ⌊(x + f) / 64⌋ ≤ ⌊(x + 1) / 64⌋ := Int.floor_mono (by linarith)
  have hc : ⌊(x + 1) / 64⌋ ≤ ⌊x / 64⌋ + 1 := by
    have h2 : x / 64 < (⌊x / 64⌋ : ℚ) + 1 := Int.lt_floor_add_one _
    have h3 : ⌊(x + 1) / 64⌋ < ⌊x / 64⌋ + 2 := by
      apply Int.floor_lt.mpr
      push_cast
      linarith
    omega
  omega

/-- A guarded fractional step (size between 0 and 1) lands in the cell
of one of the two endpoints, hence in an open cell. -/
theorem frac_step_nonwall {m : Maze} {p : ℚ × ℚ} {d : ℤ × ℤ} {f : ℚ}
    (hd : d = UP ∨ d = DOWN ∨ d = LEFT ∨ d = RIGHT)
    (h0 : 0 ≤ f) (h1 : f ≤ 1)
    (hcur : is_wall m (pixel_to_grid p) = false)
    (hcan : can_move_dir m p d = true) :
    is_wall m (pixel_to_grid (stepP p d f)) = false := by
  have hnext := can_move_dir_next hcan
  rcases hd with h | h | h | h <;> subst h
  · -- UP = (0, -1): the y coordinate decreases by f
    have hx : stepP p UP f = (p.1, p.2 - f) := by
      simp [stepP, UP]; ring
    have hnx : (p.1 + ((UP.1 : ℤ) : ℚ), p.2 + ((UP.2 : ℤ) : ℚ)) = (p.1, p.2 - 1) := by
      simp [UP]; ring
    rw [hnx] at hnext
    rw [hx]
    have hsplit := floor_div64_between ((p.2 - 1) - 64) (1 - f) (by linarith) (by linarith)
    have e1 : ((p.2 - 1) - 64) + (1 - f) = (p.2 - f) - 64 := by ring
    have e2 : ((p.2 - 1) - 64) + 1 = p.2 - 64 := by ring
    rw [e1, e2] at hsplit
    rcases hsplit with hcell | hcell
    · have : pixel_to_grid (p.1, p.2 - f) = pixel_to_grid (p.1, p.2 - 1) := by
        simp [pixel_to_grid, hcell]
      rw [this]; exact hnext
    · have : pixel_to_grid (p.1, p.2 - f) = pixel_to_grid p := by
        simp [pixel_to_grid, hcell]
      rw [this]; exact hcur
  · -- DOWN = (0, 1): the y coordinate grows by f
    have hx : stepP p DOWN f = (p.1, p.2 + f) := by
      simp [stepP, DOWN]
    have hnx : (p.1 + ((DOWN.1 : ℤ) : ℚ), p.2 + ((DOWN.2 : ℤ) : ℚ)) = (p.1, p.2 + 1) := by
      simp [DOWN]
    rw [hnx] at hnext
    rw [hx]
    have hsplit := floor_div64_between (p.2 - 64) f h0 h1
    have e1 : (p.2 - 64) + f = (p.2 + f) - 64 := by ring
    have e2 : (p.2 - 64) + 1 = (p.2 + 1) - 64 := by ring
    rw [e1, e2] at hsplit
    rcases hsplit with hcell | hcell
    · have : pixel_to_grid (p.1, p.2 + f) = pixel_to_grid p := by
        simp [pixel_to_grid, hcell]
      rw [this]; exact hcur
    · have : pixel_to_grid (p.1, p.2 + f) = pixel_to_grid (p.1, p.2 + 1) := by
        simp [pixel_to_grid, hcell]
      rw [this]; exact hnext
  · -- LEFT = (-1, 0): the x coordinate decreases by f
    have hx : stepP p LEFT f = (p.1 - f, p.2) := by
      simp [stepP, LEFT]; ring
    have hnx : (p.1 + ((LEFT.1 : ℤ) : ℚ), p.2 + ((LEFT.2 : ℤ) : ℚ)) = (p.1 - 1, p.2) := by
      simp [LEFT]; ring
    rw [hnx] at hnext
    rw [hx]
    have hsplit := floor_div64_between (p.1 - 1) (1 - f) (by linarith) (by linarith)
    have e1 : (p.1 - 1) + (1 - f) = p.1 - f := by ring
    have e2 : (p.1 - 1) + 1 = p.1 := by ring
    rw [e1, e2] at hsplit
    rcases hsplit with hcell | hcell
    · have : pixel_to_grid (p.1 - f, p.2) = pixel_to_grid (p.1 - 1, p.2) := by
        simp [pixel_to_grid, hcell]
      rw [this]; exact hnext
    · have : pixel_to_grid (p.1 - f, p.2) = pixel_to_grid p := by
        simp [pixel_to_grid, hcell]
      rw [this]; exact hcur
  · -- RIGHT = (1, 0): the x coordinate grows by f
    have hx : stepP p RIGHT f = (p.1 + f, p.2) := by
      simp [stepP, RIGHT]
    have hnx : (p.1 + ((RIGHT.1 : ℤ) : ℚ), p.2 + ((RIGHT.2 : ℤ) : ℚ)) = (p.1 + 1, p.2) := by
      simp [RIGHT]
    rw [hnx] at hnext
    rw [hx]
    have hsplit := floor_div64_between p.1 f h0 h1
    rcases hsplit with hcell | hcell
    · have : pixel_to_grid (p.1 + f, p.2) = pixel_to_grid p := by
        simp [pixel_to_grid, hcell]
      rw [this]; exact hcur
    · have : pixel_to_grid (p.1 + f, p.2) = pixel_to_grid (p.1 + 1, p.2) := by
        simp [pixel_to_grid, hcell]
      rw [this]; exact hnext

/-- The fractional remainder `speed - int(speed)` is at most 1 whenever
it is positive. -/
theorem frac_le_one {speed : ℚ} (h : 0 < speed - (⌊speed⌋.toNat : ℚ)) :
    speed - (⌊speed⌋.toNat : ℚ) ≤ 1 := by
  by_cases hs : 0 ≤ speed
  · have h0 : (0 : ℤ) ≤ ⌊speed⌋ := Int.floor_nonneg.mpr hs
    have ht : ((⌊speed⌋.toNat : ℤ) : ℚ) = ((⌊speed⌋ : ℤ) : ℚ) := by
      rw [Int.toNat_of_nonneg h0]
    have h2 : speed < (⌊speed⌋ : ℚ) + 1 := Int.lt_floor_add_one _
    push_cast at ht ⊢
    linarith
  · exfalso
    push_neg at hs
    have h0 : ⌊speed⌋ ≤ 0 := by
      have := Int.floor_le_floor (α := ℚ) (le_of_lt hs)
      simpa using this
    have ht : ⌊speed⌋.toNat = 0 := Int.toNat_of_nonpos h0
    rw [ht] at h
    push_cast at h
    linarith

/-- C3: the wall-constrained move keeps the actor's resolved grid cell
open, for every maze, every game direction and every speed. -/
theorem C3_move_preserves_nonwall (m : Maze) (speed : ℚ) (d : ℤ × ℤ) (p : ℚ × ℚ)
    (hd : d = UP ∨ d = DOWN ∨ d = LEFT ∨ d = RIGHT ∨ d = STOP)
    (h : is_wall m (pixel_to_grid p) = false) :
    is_wall m (pixel_to_grid (actor_move m speed d p)) = false := by
  unfold actor_move
  by_cases hstop : d = STOP
  · simpa [hstop] using h
  · have hd4 : d = UP ∨ d = DOWN ∨ d = LEFT ∨ d = RIGHT := by
      rcases hd with h1 | h1 | h1 | h1 | h1
      · exact Or.inl h1
      · exact Or.inr (Or.inl h1)
      · exact Or.inr (Or.inr (Or.inl h1))
      · exact Or.inr (Or.inr (Or.inr h1))
      · exact absurd h1 hstop
    have h1 : is_wall m (pixel_to_grid (move_steps m d ⌊speed⌋.toNat p)) = false :=
      move_steps_nonwall m d ⌊speed⌋.toNat p h
    rw [if_neg hstop]
    dsimp only
    split
    · next hfc =>
      exact frac_step_nonwall hd4 (le_of_lt hfc.1) (frac_le_one hfc.1) h1 hfc.2
    · exact h1

/-!
## The centering predicate (claim C4 machinery)
-/

theorem qmod_nonneg (a : ℚ) : 0 ≤ qmod a 64 := by
  have h := Int.floor_le (a / 64)
  unfold qmod
  linarith

theorem qmod_lt (a : ℚ) : qmod a 64 < 64 := by
  have h := Int.lt_floor_add_one (a / 64)
  unfold qmod
  linarith

/-- One axis of the centering test: the source's nonnegative modular
offset is below 1/2 exactly when the position sits in the half-open
band `[center, center + 1/2)` of its containing cell. -/
theorem centered_axis (x : ℚ) :
    |qmod (x - 32) 64| < 1 / 2 ↔
      (0 ≤ x - ((⌊x / 64⌋ : ℚ) * 64 + 32) ∧ x - ((⌊x / 64⌋ : ℚ) * 64 + 32) < 1 / 2) := by
  rw [abs_of_nonneg (qmod_nonneg _)]
  unfold qmod
  constructor
  · intro h
    have hk1 : ((⌊(x - 32) / 64⌋ : ℤ) : ℚ) ≤ (x - 32) / 64 := Int.floor_le _
    have hk2 : (x - 32) / 64 < (⌊(x - 32) / 64⌋ : ℚ) + 1 := Int.lt_floor_add_one _
    have hfl : ⌊x / 64⌋ = ⌊(x - 32) / 64⌋ := by
      rw [Int.floor_eq_iff]
      constructor
      · linarith
      · linarith
    rw [hfl]
    constructor <;> linarith
  · rintro ⟨h1, h2⟩
    have hc1 : ((⌊x / 64⌋ : ℤ) : ℚ) ≤ x / 64 := Int.floor_le _
    have hfl : ⌊(x - 32) / 64⌋ = ⌊x / 64⌋ := by
      rw [Int.floor_eq_iff]
      constructor
      · linarith
      · linarith
    rw [hfl]
    linarith

/-- C4 (amended): `is_centered` is true iff the position lies in the
half-open band `[center, center + 1/2)` of its containing cell on both
axes; offsets strictly before the center (negative offsets) are not
centered, because the source's Python `%` returns a nonnegative
residue whose absolute value is then large. -/
theorem C4_centered_iff (p : ℚ × ℚ) :
    is_centered p = true ↔
      (0 ≤ p.1 - (grid_to_pixel (pixel_to_grid p)).1 ∧
        p.1 - (grid_to_pixel (pixel_to_grid p)).1 < 1 / 2 ∧
        0 ≤ p.2 - (grid_to_pixel (pixel_to_grid p)).2 ∧
        p.2 - (grid_to_pixel (pixel_to_grid p)).2 < 1 / 2) := by
  have hx := centered_axis p.1
  have hy := centered_axis (p.2 - 64)
  simp only [is_centered, Bool.and_eq_true, decide_eq_true_eq,
    grid_to_pixel, pixel_to_grid]
  constructor
  · rintro ⟨h1, h2⟩
    have a1 := hx.mp h1
    have a2 := hy.mp h2
    refine ⟨a1.1, a1.2, ?_, ?_⟩
    · linarith [a2.1]
    · linarith [a2.2]
  · rintro ⟨b1, b2, b3, b4⟩
    exact ⟨hx.mpr ⟨b1, b2⟩, hy.mpr ⟨by linarith, by linarith⟩⟩

/-- C4 counterexample: the point 0.3 units to the left of the center of
cell (0, 0) (position (31.7, 96)) is centered by the spec's symmetric
reading but not for the source's `is_centered`. -/
theorem C4_counterexample :
    spec_is_centered (317 / 10, 96) = true ∧ is_centered (317 / 10, 96) = false := by
  constructor
  · with_unfolding_all decide
  · with_unfolding_all decide

/-!
## Maze mutation invariants (claims C5, C6, C10 machinery)
-/

theorem getD_set_of_ne {α : Type} (dflt : α) :
    ∀ (L : List α) (i j : ℕ) (x : α), i ≠ j →
      (L.set i x).getD j dflt = L.getD j dflt := by
  intro L
  induction L with
  | nil => intro i j x _; simp
  | cons a t ih =>
    intro i j x hne
    cases i with
    | zero =>
      cases j with
      | zero => exact absurd rfl hne
      | succ j2 => simp [List.set, List.getD]
    | succ i2 =>
      cases j with
      | zero => simp [List.set, List.getD]
      | succ j2 =>
        simp only [List.set, List.getD_cons_succ]
        exact ih i2 j2 x (fun h => hne (by rw [h]))

theorem getD_set_self_or {α : Type} (dflt : α) :
    ∀ (L : List α) (i : ℕ) (x : α),
      (L.set i x).getD i dflt = x ∨ (L.set i x).getD i dflt = L.getD i dflt := by
  intro L
  induction L with
  | nil => intro i x; right; simp
  | cons a t ih =>
    intro i x
    cases i with
    | zero => left; simp
    | succ i2 =>
      simp only [List.set, List.getD_cons_succ]
      exact ih i2 x

theorem setCell_length (L : List (List ℕ)) (cell : ℤ × ℤ) (v : ℕ) :
    (setCell L cell v).length = L.length := by
  simp [setCell]

theorem setCell_cols (L : List (List ℕ)) (cell : ℤ × ℤ) (v : ℕ) :
    mazeCols (setCell L cell v) = mazeCols L := by
  unfold mazeCols setCell
  by_cases h0 : cell.2.toNat = 0
  · rw [h0]
    cases L with
    | nil => simp
    | cons r t => simp
  · rw [getD_set_of_ne _ _ _ _ _ h0]

/-- Writing `0` to a non-wall cell changes no `is_wall` answer. -/
theorem is_wall_setCell (m : Maze) (cell : ℤ × ℤ) (P Q : Finset (ℤ × ℤ))
    (hcell : is_wall m cell = false) :
    ∀ c, is_wall ⟨setCell m.layout cell 0, P, Q⟩ c = is_wall m c := by
  intro c
  have hrows : mazeRows (setCell m.layout cell 0) = mazeRows m.layout := by
    simp [mazeRows, setCell_length]
  have hcols : mazeCols (setCell m.layout cell 0) = mazeCols m.layout :=
    setCell_cols m.layout cell 0
  have hbounds : in_bounds ⟨setCell m.layout cell 0, P, Q⟩ c = in_bounds m c := by
    simp [in_bounds, hrows, hcols]
  -- the eaten cell itself was in bounds with a non-wall entry
  have hcb : in_bounds m cell = true := by
    by_contra hne
    have : in_bounds m cell = false := by
      cases h : in_bounds m cell
      · rfl
      · exact absurd h hne
    rw [is_wall, this] at hcell
    simp at hcell
  have hce : entryAt m cell ≠ 1 := by
    rw [is_wall, hcb] at hcell
    simpa using hcell
  unfold is_wall
  rw [hbounds]
  by_cases hb : in_bounds m c = true
  · rw [hb]
    simp only [if_true]
    by_cases heq : c = cell
    · subst heq
      -- the entry becomes 0 or stays: in either case it is not 1
      have hor : entryAt ⟨setCell m.layout c 0, P, Q⟩ c = 0 ∨
          entryAt ⟨setCell m.layout c 0, P, Q⟩ c = entryAt m c := by
        unfold entryAt setCell
        by_cases hrow : (m.layout.set c.2.toNat
            ((m.layout.getD c.2.toNat []).set c.1.toNat 0)).getD c.2.toNat [] =
            (m.layout.getD c.2.toNat []).set c.1.toNat 0
        · rw [hrow]
          exact getD_set_self_or 0 (m.layout.getD c.2.toNat []) c.1.toNat 0
        · rcases getD_set_self_or [] m.layout c.2.toNat
              ((m.layout.getD c.2.toNat []).set c.1.toNat 0) with h | h
          · exact absurd h hrow
          · rw [h]
            right
            rfl
      rcases hor with h | h <;> simp [h, hce]
    · -- a different in-bounds cell: its entry is untouched
      have hent : entryAt ⟨setCell m.layout cell 0, P, Q⟩ c = entryAt m c := by
        unfold entryAt setCell
        by_cases hrow : c.2.toNat = cell.2.toNat
        · -- same row index, so the column indices must differ
          have hcolne : cell.1.toNat ≠ c.1.toNat := by
            intro hcol
            apply heq
            have hb2 : 0 ≤ c.1 ∧ 0 ≤ c.2 := by
              have := hb
              unfold in_bounds at this
              simp only [Bool.and_eq_true, decide_eq_true_eq] at this
              exact ⟨this.1.2, this.1.1.1⟩
            have hcb2 : 0 ≤ cell.1 ∧ 0 ≤ cell.2 := by
              have := hcb
              unfold in_bounds at this
              simp only [Bool.and_eq_true, decide_eq_true_eq] at this
              exact ⟨this.1.2, this.1.1.1⟩
            have e1 : c.1 = cell.1 := by omega
            have e2 : c.2 = cell.2 := by omega
            exact Prod.ext e1 e2
          rw [← hrow]
          have hrowD : (m.layout.set c.2.toNat
              ((m.layout.getD c.2.toNat []).set cell.1.toNat 0)).getD c.2.toNat [] =
              (m.layout.getD c.2.toNat []).set cell.1.toNat 0 ∨
              (m.layout.set c.2.toNat
              ((m.layout.getD c.2.toNat []).set cell.1.toNat 0)).getD c.2.toNat [] =
              m.layout.getD c.2.toNat [] := by
            have := getD_set_self_or [] m.layout c.2.toNat
              ((m.layout.getD c.2.toNat []).set cell.1.toNat 0)
            rcases this with h | h
            · exact Or.inl h
            · exact Or.inr (by rw [h])
          rcases hrowD with h | h
          · rw [h, getD_set_of_ne _ _ _ _ _ hcolne]
          · rw [h]
        · rw [getD_set_of_ne _ _ _ _ _ (fun h => hrow h.symm)]
      rw [hent]
  · have : in_bounds m c = false := by
      cases h : in_bounds m c
      · rfl
      · exact absurd h hb
    rw [this]
    simp

theorem mazeInv_init : mazeInv (mazeInit maze_layout) := by
  refine ⟨by decide, by decide, fun c => rfl, ?_⟩
  have hint : (mazeInit maze_layout).pellets ∩ (mazeInit maze_layout).power_pellets = ∅ := by
    decide
  rintro c ⟨h1, h2⟩
  have hc : c ∈ (mazeInit maze_layout).pellets ∩ (mazeInit maze_layout).power_pellets :=
    Finset.mem_inter.mpr ⟨h1, h2⟩
  rw [hint] at hc
  exact absurd hc (Finset.not_mem_empty c)

theorem mazeInv_eat (m : Maze) (cell : ℤ × ℤ) (hm : mazeInv m) :
    mazeInv (eat_at m cell).2 := by
  obtain ⟨hip, hiq, hiw, hid⟩ := hm
  unfold eat_at
  by_cases hp : cell ∈ m.pellets
  · rw [if_pos hp]
    have hwall := is_wall_setCell m cell (m.pellets.erase cell) m.power_pellets (hip cell hp)
    refine ⟨?_, ?_, ?_, ?_⟩
    · intro c hc
      rw [hwall c]
      exact hip c (Finset.mem_of_mem_erase hc)
    · intro c hc
      rw [hwall c]
      exact hiq c hc
    · intro c
      rw [hwall c]
      exact hiw c
    · rintro c ⟨h1, h2⟩
      exact hid c ⟨Finset.mem_of_mem_erase h1, h2⟩
  · rw [if_neg hp]
    by_cases hq : cell ∈ m.power_pellets
    · rw [if_pos hq]
      have hwall := is_wall_setCell m cell m.pellets (m.power_pellets.erase cell) (hiq cell hq)
      refine ⟨?_, ?_, ?_, ?_⟩
      · intro c hc
        rw [hwall c]
        exact hip c hc
      · intro c hc
        rw [hwall c]
        exact hiq c (Finset.mem_of_mem_erase hc)
      · intro c
        rw [hwall c]
        exact hiw c
      · rintro c ⟨h1, h2⟩
        exact hid c ⟨h1, Finset.mem_of_mem_erase h2⟩
    · rw [if_neg hq]
      exact ⟨hip, hiq, hiw, hid⟩

theorem reachable_inv {m : Maze} (hm : Reachable m) : mazeInv m := by
  induction hm with
  | init => exact mazeInv_init
  | eat m2 cell _ ih => exact mazeInv_eat m2 cell ih

/-- C6: `is_wall` is constant over the maze's lifetime — in every
reachable maze state (construction plus any sequence of consumptions)
every cell's wall status agrees with the freshly built maze. -/
theorem C6_walls_constant (m : Maze) (hm : Reachable m) :
    ∀ c, is_wall m c = is_wall (mazeInit maze_layout) c :=
  (reachable_inv hm).2.2.1

/-- C6 witness: after eating the pellet at (1, 1), wall answers are
unchanged, e.g. at the wall cell (2, 2) and at (1, 1) itself. -/
theorem C6_witness :
    is_wall (eat_at (mazeInit maze_layout) (1, 1)).2 (2, 2) =
      is_wall (mazeInit maze_layout) (2, 2) :=
  C6_walls_constant _ (Reachable.eat _ (1, 1) Reachable.init) (2, 2)

/-- C10: in every reachable maze state the pellet set and the
power-pellet set are disjoint. -/
theorem C10_pellet_sets_disjoint (m : Maze) (hm : Reachable m) :
    ∀ c, ¬(c ∈ m.pellets ∧ c ∈ m.power_pellets) :=
  (reachable_inv hm).2.2.2

/-- C10 witness: the freshly built maze does not hold (3, 1) (a
power-pellet cell) in both sets. -/
theorem C10_witness :
    ¬(((3 : ℤ), (1 : ℤ)) ∈ (mazeInit maze_layout).pellets ∧
      ((3 : ℤ), (1 : ℤ)) ∈ (mazeInit maze_layout).power_pellets) :=
  C10_pellet_sets_disjoint _ Reachable.init ((3 : ℤ), (1 : ℤ))

/-- C5: consumption is idempotent — at a cell holding a pellet or a
power pellet (and, as in every reachable state, not both) the first
`eat_at` returns a nonzero score, and a second `eat_at` at the same cell
returns zero and leaves the maze (both pellet sets included)
unchanged. -/
theorem C5_eat_idempotent (m : Maze) (cell : ℤ × ℤ)
    (h1 : cell ∈ m.pellets ∨ cell ∈ m.power_pellets)
    (h2 : ¬(cell ∈ m.pellets ∧ cell ∈ m.power_pellets)) :
    (eat_at m cell).1 ≠ 0 ∧
    (eat_at (eat_at m cell).2 cell).1 = 0 ∧
    (eat_at (eat_at m cell).2 cell).2 = (eat_at m cell).2 := by
  by_cases hp : cell ∈ m.pellets
  · have hq : cell ∉ m.power_pellets := fun hq => h2 ⟨hp, hq⟩
    have hfst : eat_at m cell =
        (PELLET_SCORE,
          { layout := setCell m.layout cell 0,
            pellets := m.pellets.erase cell,
            power_pellets := m.power_pellets }) := by
      simp [eat_at, hp]
    rw [hfst]
    refine ⟨by simp [PELLET_SCORE], ?_, ?_⟩
    · simp [eat_at, Finset.not_mem_erase, hq]
    · simp [eat_at, Finset.not_mem_erase, hq]
  · have hq : cell ∈ m.power_pellets := by
      rcases h1 with h | h
      · exact absurd h hp
      · exact h
    have hfst : eat_at m cell =
        (POWER_PELLET_SCORE,
          { layout := setCell m.layout cell 0,
            pellets := m.pellets,
            power_pellets := m.power_pellets.erase cell }) := by
      simp [eat_at, hp, hq]
    rw [hfst]
    refine ⟨by simp [POWER_PELLET_SCORE], ?_, ?_⟩
    · simp [eat_at, Finset.not_mem_erase, hp]
    · simp [eat_at, Finset.not_mem_erase, hp]

/-- C5 witness: the pellet at (1, 1) of the fresh maze is consumed
exactly once. -/
theorem C5_witness :
    (((1 : ℤ), (1 : ℤ)) ∈ (mazeInit maze_layout).pellets ∨
      ((1 : ℤ), (1 : ℤ)) ∈ (mazeInit maze_layout).power_pellets) ∧
    ((eat_at (mazeInit maze_layout) (1, 1)).1 ≠ 0 ∧
      (eat_at (eat_at (mazeInit maze_layout) (1, 1)).2 (1, 1)).1 = 0 ∧
      (eat_at (eat_at (mazeInit maze_layout) (1, 1)).2 (1, 1)).2 =
        (eat_at (mazeInit maze_layout) (1, 1)).2) :=
  ⟨by decide, C5_eat_idempotent _ _ (by decide) (by decide)⟩

/-- C3 witness: a ghost-speed move to the RIGHT from the center of the
open cell (1, 1) again resolves to an open cell. -/
theorem C3_witness :
    is_wall (mazeInit maze_layout) (pixel_to_grid (grid_to_pixel (1, 1))) = false ∧
    is_wall (mazeInit maze_layout)
      (pixel_to_grid (actor_move (mazeInit maze_layout) GHOST_SPEED RIGHT
        (grid_to_pixel (1, 1)))) = false :=
  ⟨by with_unfolding_all decide,
    C3_move_preserves_nonwall (mazeInit maze_layout) GHOST_SPEED RIGHT
      (grid_to_pixel (1, 1))
      (Or.inr (Or.inr (Or.inr (Or.inl rfl))))
      (by with_unfolding_all decide)⟩

/-!
## Power-mode start on consumption (claim C7)
-/

/-- `set_power_mode`'s ghost rebuild written pointwise: an alive ghost
gets `frightened := true`, a dead ghost keeps its old flag. -/
theorem map_frighten_alive (gs : List Ghost) :
    gs.map (fun g => if g.alive = true then { g with frightened := true } else g) =
      gs.map (fun g => { g with frightened := g.alive || g.frightened }) := by
  induction gs with
  | nil => rfl
  | cons g t ih =>
    simp only [List.map_cons, ih]
    congr 1
    obtain ⟨pos, dir, fr, rc, al⟩ := g
    cases al <;> simp

/-- C7: consuming a power pellet at the player's cell adds 50 to the
score, sets the expiry to `now + 6000`, and marks exactly the
currently-alive adversaries frightened (a dead adversary's flag is
untouched); consuming a plain pellet adds 10 and changes neither the
expiry nor any ghost. -/
theorem C7_consumption_effects (st : Game) (now : ℕ) :
    (pixel_to_grid st.pacman.pos ∈ st.maze.power_pellets →
      pixel_to_grid st.pacman.pos ∉ st.maze.pellets →
      (eat_logic now st).score = st.score + POWER_PELLET_SCORE ∧
      (eat_logic now st).power_expires_at = now + POWER_DURATION_MS ∧
      (eat_logic now st).ghosts =
        st.ghosts.map (fun g => { g with frightened := g.alive || g.frightened })) ∧
    (pixel_to_grid st.pacman.pos ∈ st.maze.pellets →
      (eat_logic now st).score = st.score + PELLET_SCORE ∧
      (eat_logic now st).power_expires_at = st.power_expires_at ∧
      (eat_logic now st).ghosts = st.ghosts) := by
  constructor
  · intro hq hp
    have hr : eat_at st.maze (pixel_to_grid st.pacman.pos) =
        (POWER_PELLET_SCORE,
          { layout := setCell st.maze.layout (pixel_to_grid st.pacman.pos) 0,
            pellets := st.maze.pellets,
            power_pellets := st.maze.power_pellets.erase (pixel_to_grid st.pacman.pos) }) := by
      simp [eat_at, hp, hq]
    rw [← map_frighten_alive]
    simp [eat_logic, hr, POWER_PELLET_SCORE, set_power_mode, POWER_DURATION_MS]
  · intro hp
    have hr : eat_at st.maze (pixel_to_grid st.pacman.pos) =
        (PELLET_SCORE,
          { layout := setCell st.maze.layout (pixel_to_grid st.pacman.pos) 0,
            pellets := st.maze.pellets.erase (pixel_to_grid st.pacman.pos),
            power_pellets := st.maze.power_pellets }) := by
      simp [eat_at, hp]
    simp [eat_logic, hr, PELLET_SCORE, POWER_PELLET_SCORE]

/-- C7 witness: with the player on the power-pellet cell (3, 1), both
initially-alive ghosts become frightened, the score grows by 50 and the
expiry is set; on the plain-pellet cell (1, 1), score grows by 10 with
no other change. -/
theorem C7_witness :
    (((eat_logic 100 stC7).score = stC7.score + POWER_PELLET_SCORE ∧
      (eat_logic 100 stC7).power_expires_at = 100 + POWER_DURATION_MS ∧
      (eat_logic 100 stC7).ghosts =
        stC7.ghosts.map (fun g => { g with frightened := g.alive || g.frightened })) ∧
     ((eat_logic 100 stC7b).score = stC7b.score + PELLET_SCORE ∧
      (eat_logic 100 stC7b).power_expires_at = stC7b.power_expires_at ∧
      (eat_logic 100 stC7b).ghosts = stC7b.ghosts)) :=
  ⟨(C7_consumption_effects stC7 100).1 (by with_unfolding_all decide)
      (by with_unfolding_all decide),
   (C7_consumption_effects stC7b 100).2 (by with_unfolding_all decide)⟩

/-!
## Collision resolution (claims C8, C1)
-/

/-- The collision loop leaves everything unchanged when every ghost is
dead or out of range (the processed prefix is reassembled as the code's
in-place list). -/
theorem collisionGo_skip (rd : ℕ → ℤ × ℤ) (p : ℚ × ℚ) :
    ∀ (gs acc : List Ghost) (st : Game),
      (∀ g ∈ gs, g.alive = false ∨ collides p g.pos = false) →
      collisionGo rd p gs acc st = { st with ghosts := acc.reverse ++ gs } := by
  intro gs
  induction gs with
  | nil => intro acc st _; simp [collisionGo]
  | cons g t ih =>
    intro acc st h
    have hg := h g (List.mem_cons_self g t)
    unfold collisionGo
    have hcond : ¬(g.alive = true ∧ collides p g.pos = true) := by
      rcases hg with h1 | h1 <;> simp [h1]
    rw [if_neg hcond]
    rw [ih (g :: acc) st (fun x hx => h x (List.mem_cons_of_mem g hx))]
    simp

/-- C8: a Dead-Awaiting-Respawn adversary never triggers a collision —
when every ghost is dead or beyond the proximity threshold (so in
particular a dead ghost may coincide with the player), collision
resolution is the identity on the whole game state. -/
theorem C8_dead_ghost_no_collision (st : Game) (rd : ℕ → ℤ × ℤ)
    (h : ∀ g ∈ st.ghosts, g.alive = false ∨ collides st.pacman.pos g.pos = false) :
    collision_logic rd st = st := by
  unfold collision_logic
  rw [collisionGo_skip rd st.pacman.pos st.ghosts [] st h]
  simp

/-- C8 witness: a dead ghost exactly at the player's position (distance
zero) changes nothing — score, lives and the ghost's state included. -/
theorem C8_witness : collision_logic rd0 stC8 = stC8 :=
  C8_dead_ghost_no_collision stC8 rd0 (by with_unfolding_all decide)

/-!
## Round reset (claim C9)
-/

theorem resetGhosts_length (rd : ℕ → ℤ × ℤ) :
    ∀ (gs : List Ghost) (k : ℕ), (resetGhosts rd k gs).length = gs.length := by
  intro gs
  induction gs with
  | nil => intro k; rfl
  | cons g t ih => intro k; simp [resetGhosts, ih (k + 1)]

theorem resetGhosts_getD (rd : ℕ → ℤ × ℤ) (gd : Ghost) :
    ∀ (gs : List Ghost) (k i : ℕ), i < gs.length →
      (resetGhosts rd k gs).getD i gd = reset_to_spawn (rd (k + i)) (gs.getD i gd) := by
  intro gs
  induction gs with
  | nil => intro k i h; simp at h
  | cons g t ih =>
    intro k i h
    cases i with
    | zero => simp [resetGhosts]
    | succ j =>
      simp only [resetGhosts, List.getD_cons_succ]
      rw [ih (k + 1) j (by simpa using h)]
      have he : k + 1 + j = k + (j + 1) := by omega
      rw [he]

/-- C9: a round reset puts the player at (3, 3), sends every adversary
to its own spawn cell alive and unfrightened, clears the power-mode
expiry, and leaves the score, the lives, and the maze — hence both
pellet sets — untouched. -/
theorem C9_reset_round_frame (st : Game) (rd : ℕ → ℤ × ℤ) (gd : Ghost) :
    (reset_round rd st).pacman.pos = grid_to_pixel (3, 3) ∧
    (reset_round rd st).pacman.dir = STOP ∧
    (reset_round rd st).power_expires_at = 0 ∧
    (reset_round rd st).score = st.score ∧
    (reset_round rd st).maze = st.maze ∧
    (reset_round rd st).lives = st.lives ∧
    (reset_round rd st).ghosts.length = st.ghosts.length ∧
    (∀ i, i < st.ghosts.length →
      ((reset_round rd st).ghosts.getD i gd).pos =
        grid_to_pixel ((st.ghosts.getD i gd).respawn_cell) ∧
      ((reset_round rd st).ghosts.getD i gd).alive = true ∧
      ((reset_round rd st).ghosts.getD i gd).frightened = false ∧
      ((reset_round rd st).ghosts.getD i gd).respawn_cell =
        (st.ghosts.getD i gd).respawn_cell) := by
  refine ⟨rfl, rfl, rfl, rfl, rfl, rfl, ?_, ?_⟩
  · simp [reset_round, resetGhosts_length]
  · intro i hi
    have h := resetGhosts_getD rd gd st.ghosts 0 i hi
    simp only [Nat.zero_add] at h
    have hpos : ((reset_round rd st).ghosts).getD i gd =
        reset_to_spawn (rd i) (st.ghosts.getD i gd) := by
      simp only [reset_round]
      exact h
    rw [hpos]
    exact ⟨rfl, rfl, rfl, rfl⟩

/-- C9 witness: resetting the fresh game keeps score and maze, clears
power mode, and puts ghost 0 back at its spawn (3, 1), alive and calm. -/
theorem C9_witness :
    (reset_round rd0 (Game.init UP UP)).pacman.pos = grid_to_pixel (3, 3) ∧
    (reset_round rd0 (Game.init UP UP)).power_expires_at = 0 ∧
    (reset_round rd0 (Game.init UP UP)).score = (Game.init UP UP).score ∧
    (reset_round rd0 (Game.init UP UP)).maze = (Game.init UP UP).maze ∧
    ((reset_round rd0 (Game.init UP UP)).ghosts.getD 0 gdef).pos =
      grid_to_pixel (((Game.init UP UP).ghosts.getD 0 gdef).respawn_cell) ∧
    ((reset_round rd0 (Game.init UP UP)).ghosts.getD 0 gdef).alive = true ∧
    ((reset_round rd0 (Game.init UP UP)).ghosts.getD 0 gdef).frightened = false := by
  have h := C9_reset_round_frame (Game.init UP UP) rd0 gdef
  have hg := h.2.2.2.2.2.2.2 0 (by with_unfolding_all decide)
  exact ⟨h.1, h.2.2.1, h.2.2.2.1, h.2.2.2.2.1, hg.1, hg.2.1, hg.2.2.1⟩

/-!
## Fatal collision still resets the round (claim C1)
-/

/-- C1 counterexample: with one life left and an alive, non-frightened
ghost on the player (player parked at cell (1, 1)), the collision step
sets game over AND moves the player — the round state is not frozen, so
the claim "no round reset is performed" is false on the code. -/
theorem C1_counterexample :
    (collision_logic rd0 stC1).game_over = true ∧
    (collision_logic rd0 stC1).lives = 0 ∧
    (collision_logic rd0 stC1).pacman.pos ≠ stC1.pacman.pos := by
  refine ⟨?_, ?_, ?_⟩ <;> with_unfolding_all decide

/-- C1 (amended): when the player collides with a non-frightened alive
adversary (here: the first ghost of the list) and lives drop to zero,
the code sets game over and still performs the full round reset — the
player returns to (3, 3), every adversary to its spawn, power mode is
cleared — while score and maze stay untouched. (The round is frozen
only from the next frame on, because `tick` is skipped once
`game_over` is set.) -/
theorem C1_fatal_collision_resets (st : Game) (rd : ℕ → ℤ × ℤ) (g : Ghost)
    (rest : List Ghost)
    (hg : st.ghosts = g :: rest) (hl : st.lives = 1)
    (ha : g.alive = true) (hf : g.frightened = false)
    (hc : collides st.pacman.pos g.pos = true) :
    (collision_logic rd st).game_over = true ∧
    (collision_logic rd st).lives = 0 ∧
    (collision_logic rd st).pacman = Pacman.init (3, 3) ∧
    (collision_logic rd st).power_expires_at = 0 ∧
    (collision_logic rd st).ghosts = resetGhosts rd 0 st.ghosts ∧
    (collision_logic rd st).score = st.score ∧
    (collision_logic rd st).maze = st.maze := by
  unfold collision_logic
  rw [hg]
  unfold collisionGo
  rw [if_pos ⟨ha, hc⟩, if_neg (by simp [hf])]
  rw [hl]
  simp [reset_round, hg]

/-- C1 amended-claim witness: the concrete fatal collision of
`C1_counterexample` ends in the reset-and-game-over state. -/
theorem C1_witness :
    (collision_logic rd0 stC1).game_over = true ∧
    (collision_logic rd0 stC1).lives = 0 ∧
    (collision_logic rd0 stC1).pacman = Pacman.init (3, 3) ∧
    (collision_logic rd0 stC1).power_expires_at = 0 ∧
    (collision_logic rd0 stC1).ghosts = resetGhosts rd0 0 stC1.ghosts ∧
    (collision_logic rd0 stC1).score = stC1.score ∧
    (collision_logic rd0 stC1).maze = stC1.maze :=
  C1_fatal_collision_resets stC1 rd0 _ [] rfl rfl rfl rfl
    (by with_unfolding_all decide)

/-!
## Dead adversaries and the per-tick update (claim C2)
-/

/-- C2 counterexample: one tick moves the dead first ghost of `stC2`
from x = 97 to x = 99.6 — a Dead-Awaiting-Respawn adversary's position
does change, so the claim that only non-dead adversaries' motion is
advanced is false on the code. -/
theorem C2_counterexample :
    (stC2.ghosts.getD 0 gdef).alive = false ∧
    ((tick 0 pick0 rd0 stC2).ghosts.getD 0 gdef).pos ≠ (stC2.ghosts.getD 0 gdef).pos := by
  constructor
  · rfl
  · with_unfolding_all decide

/-- C2 (amended): the per-tick motion update of an adversary never
consults the alive flag — a Dead-Awaiting-Respawn adversary is advanced
exactly as the same adversary would be if alive (its position can
therefore change while dead; the position is simply never used: a dead
adversary is skipped by collision checks and redrawn at its spawn). -/
theorem C2_motion_ignores_alive (m : Maze) (pick : List (ℤ × ℤ) → ℤ × ℤ) (g : Ghost) :
    (Ghost.update m pick { g with alive := false }).pos =
      (Ghost.update m pick { g with alive := true }).pos := by
  unfold Ghost.update
  dsimp only
  by_cases h : is_centered g.pos = true
  · simp [h, available_dirs]
  · simp [h]

end PacSim
